import Mathlib

/-
Verification of the MACD streaming/indicator pipeline of
lightweight_trading.py and stock_stream_macd.py.

Prices and indicator values are modelled as rationals: the Python code uses
IEEE doubles, but the claims under study concern the exact recursive
formulas, the threshold logic and the control flow, all of which are
independent of the number type.  A possibly-NaN floating value is modelled
as an Option over the rationals, with none standing for NaN, so that every
comparison involving NaN is false, as in IEEE arithmetic.
-/

namespace Trading

/-- Smoothing factor shared by both implementations:
alpha = 2 / (period + 1)  (lightweight_trading.py line 103; the same
formula defines pandas ewm with span = period and adjust = False). -/
def alpha (period : ℕ) : ℚ := 2 / ((period : ℚ) + 1)

/-- Tail of the EMA loop of lightweight_trading.py lines 105-106: starting
from the previous EMA value prev, consume the remaining prices, appending
a * price + (1 - a) * prev at each step. -/
def emaGo (a : ℚ) (prev : ℚ) : List ℚ → List ℚ
  | [] => []
  | p :: ps => (a * p + (1 - a) * prev) :: emaGo a (a * p + (1 - a) * prev) ps

/-- Function ema nested inside calculate_simple_macd
(lightweight_trading.py lines 102-107): ema_values starts as the singleton
holding data[0]; each later price appends
alpha * price + (1 - alpha) * ema_values[-1].  The source indexes data[0]
and is only ever called on non-empty data; on [] we return []. -/
def ema (data : List ℚ) (period : ℕ) : List ℚ :=
  match data with
  | [] => []
  | d :: ds => d :: emaGo (alpha period) d ds

/-- Method calculate_simple_macd (lightweight_trading.py lines 96-122):
- returns the None triple when len(prices) < slow;
- otherwise builds fast and slow EMAs of the prices, the MACD line
  fast_ema[i] - slow_ema[i] over range(len(slow_ema)), the signal line as
  the EMA of the MACD line with the hard-coded period 9, the histogram
  macd_line[i] - signal_line[i] over range(len(signal_line)), and returns
  the last element of each of the three series.
List indexing is modelled with getD (default 0); every index generated by
the comprehensions is in range, and the lists indexed by [-1] are
non-empty whenever slow > 0, so the defaults are never consulted. -/
def calculate_simple_macd (prices : List ℚ) (fast slow : ℕ) : Option (ℚ × ℚ × ℚ) :=
  if prices.length < slow then none
  else
    let fast_ema := ema prices fast
    let slow_ema := ema prices slow
    let macd_line := (List.range slow_ema.length).map
      (fun i => fast_ema.getD i 0 - slow_ema.getD i 0)
    let signal_line := ema macd_line 9
    let histogram := (List.range signal_line.length).map
      (fun i => macd_line.getD i 0 - signal_line.getD i 0)
    some (macd_line.getLastD 0, signal_line.getLastD 0, histogram.getLastD 0)

/-- Characterisation of the MACD line of calculate_simple_macd as the
elementwise difference of the fast and slow EMAs. -/
def macdLine (prices : List ℚ) (fast slow : ℕ) : List ℚ :=
  List.zipWith (fun x y => x - y) (ema prices fast) (ema prices slow)

/-- Characterisation of the signal line of calculate_simple_macd: the EMA
of the MACD line, with the hard-coded period 9 of line 117. -/
def signalLine (prices : List ℚ) (fast slow : ℕ) : List ℚ :=
  ema (macdLine prices fast slow) 9

/-- Characterisation of the histogram of calculate_simple_macd as the
elementwise difference of the MACD line and the signal line. -/
def histogramLine (prices : List ℚ) (fast slow : ℕ) : List ℚ :=
  List.zipWith (fun x y => x - y) (macdLine prices fast slow) (signalLine prices fast slow)

lemma emaGo_length (a prev : ℚ) (l : List ℚ) : (emaGo a prev l).length = l.length := by
  induction l generalizing prev with
  | nil => rfl
  | cons p ps ih => simp [emaGo, ih]

lemma ema_length (data : List ℚ) (period : ℕ) : (ema data period).length = data.length := by
  cases data with
  | nil => rfl
  | cons d ds => simp [ema, emaGo_length]

lemma emaGo_getD_zero (a prev p : ℚ) (ps : List ℚ) :
    (emaGo a prev (p :: ps)).getD 0 0 = a * p + (1 - a) * prev := rfl

lemma emaGo_getD_succ (a : ℚ) (l : List ℚ) (prev : ℚ) (i : ℕ) (h : i + 1 < l.length) :
    (emaGo a prev l).getD (i + 1) 0 =
      a * l.getD (i + 1) 0 + (1 - a) * (emaGo a prev l).getD i 0 := by
  induction l generalizing prev i with
  | nil => simp at h
  | cons p ps ih =>
    cases ps with
    | nil => simp at h
    | cons q qs =>
      cases i with
      | zero =>
        simp only [emaGo, List.getD_cons_succ, List.getD_cons_zero]
      | succ j =>
        simp only [emaGo, List.getD_cons_succ]
        exact ih _ j (by simpa using Nat.lt_of_succ_lt_succ h)

lemma ema_getD_zero (d : ℚ) (ds : List ℚ) (period : ℕ) :
    (ema (d :: ds) period).getD 0 0 = d := rfl

lemma ema_getD_succ (data : List ℚ) (period : ℕ) (i : ℕ) (h : i + 1 < data.length) :
    (ema data period).getD (i + 1) 0 =
      alpha period * data.getD (i + 1) 0 +
        (1 - alpha period) * (ema data period).getD i 0 := by
  cases data with
  | nil => simp at h
  | cons d ds =>
    cases ds with
    | nil => simp at h
    | cons q qs =>
      cases i with
      | zero =>
        simp only [ema, List.getD_cons_succ, List.getD_cons_zero]
        exact emaGo_getD_zero _ d q qs
      | succ j =>
        simp only [ema, List.getD_cons_succ]
        exact emaGo_getD_succ _ _ _ j (by simpa using Nat.lt_of_succ_lt_succ h)

lemma range_map_sub_eq_zipWith (a b : List ℚ) (n : ℕ) (ha : a.length = n) (hb : b.length = n) :
    (List.range n).map (fun i => a.getD i 0 - b.getD i 0) =
      List.zipWith (fun x y => x - y) a b := by
  apply List.ext_getElem
  · simp [ha, hb]
  · intro i h1 h2
    have hia : i < a.length := by simp at h2; omega
    have hib : i < b.length := by simp at h2; omega
    have hin : i < n := by simpa using h1
    simp only [List.getElem_map, List.getElem_range, List.getElem_zipWith]
    rw [List.getD_eq_getElem a 0 hia, List.getD_eq_getElem b 0 hib]

lemma macd_line_eq (prices : List ℚ) (fast slow : ℕ) :
    (List.range (ema prices slow).length).map
        (fun i => (ema prices fast).getD i 0 - (ema prices slow).getD i 0) =
      macdLine prices fast slow :=
  range_map_sub_eq_zipWith _ _ _ (by rw [ema_length, ema_length]) rfl

lemma macdLine_length (prices : List ℚ) (fast slow : ℕ) :
    (macdLine prices fast slow).length = prices.length := by
  simp [macdLine, ema_length]

lemma histogram_line_eq (prices : List ℚ) (fast slow : ℕ) :
    (List.range (ema (macdLine prices fast slow) 9).length).map
        (fun i => (macdLine prices fast slow).getD i 0 -
          (ema (macdLine prices fast slow) 9).getD i 0) =
      histogramLine prices fast slow :=
  range_map_sub_eq_zipWith _ _ _ (by simp [ema_length]) rfl

/-- Unfolding of calculate_simple_macd on sufficiently long input: the
comprehension-built series coincide with the zipWith characterisations and
the result is the triple of their last elements. -/
lemma calculate_simple_macd_eq (prices : List ℚ) (fast slow : ℕ) (h : slow ≤ prices.length) :
    calculate_simple_macd prices fast slow =
      some ((macdLine prices fast slow).getLastD 0,
        (signalLine prices fast slow).getLastD 0,
        (histogramLine prices fast slow).getLastD 0) := by
  have hnot : ¬ prices.length < slow := not_lt.mpr h
  simp only [calculate_simple_macd, if_neg hnot, macd_line_eq, signalLine, histogram_line_eq]

/-- Modelled from the documented semantics of the pandas call
Series.ewm(span, adjust=False).mean() used by StockTrader.get_macd
(stock_stream_macd.py lines 203-206): y[0] = x[0] and
y[t] = (1 - a) * y[t-1] + a * x[t] with a = 2 / (span + 1). -/
def ewmMean (xs : List ℚ) (span : ℕ) : List ℚ :=
  match xs with
  | [] => []
  | x :: rest => List.scanl (fun prev v => (1 - alpha span) * prev + alpha span * v) x rest

/-- Method StockTrader.get_macd (stock_stream_macd.py lines 200-208):
EMA_fast and EMA_slow columns from ewm(span, adjust=False).mean() of the
close column, MACD as their elementwise difference, Signal as the
ewm-mean of MACD with the signal span, MACD_Histogram as MACD minus
Signal; returns the three derived columns. -/
def get_macd (close : List ℚ) (fast slow signal : ℕ) : List ℚ × List ℚ × List ℚ :=
  let ema_fast := ewmMean close fast
  let ema_slow := ewmMean close slow
  let macd := List.zipWith (fun x y => x - y) ema_fast ema_slow
  let signal_col := ewmMean macd signal
  let hist := List.zipWith (fun x y => x - y) macd signal_col
  (macd, signal_col, hist)

lemma scanl_eq_emaGo (a : ℚ) (l : List ℚ) (prev : ℚ) :
    List.scanl (fun y x => (1 - a) * y + a * x) prev l = prev :: emaGo a prev l := by
  induction l generalizing prev with
  | nil => simp [List.scanl_nil, emaGo]
  | cons x xs ih =>
    rw [List.scanl_cons, emaGo]
    have hv : (1 - a) * prev + a * x = a * x + (1 - a) * prev := by ring
    rw [hv, ih]
    rfl

/-- The hand-rolled EMA and the pandas ewm(adjust=False) mean compute the
same series. -/
lemma ewmMean_eq_ema (xs : List ℚ) (period : ℕ) : ewmMean xs period = ema xs period := by
  cases xs with
  | nil => rfl
  | cons x rest => rw [ewmMean, ema, scanl_eq_emaGo]

lemma emaGo_replicate (a c : ℚ) : ∀ n : ℕ, emaGo a c (List.replicate n c) = List.replicate n c := by
  intro n
  induction n with
  | zero => rfl
  | succ m ih =>
    rw [List.replicate_succ, emaGo]
    have hc : a * c + (1 - a) * c = c := by ring
    rw [hc, ih]

/-- EMA of a constant series is that constant at every index. -/
lemma ema_replicate (n : ℕ) (c : ℚ) (period : ℕ) :
    ema (List.replicate n c) period = List.replicate n c := by
  cases n with
  | zero => rfl
  | succ m => rw [List.replicate_succ, ema, emaGo_replicate, ← List.replicate_succ]

lemma zipWith_sub_replicate (n : ℕ) (c : ℚ) :
    List.zipWith (fun x y => x - y) (List.replicate n c) (List.replicate n c) =
      List.replicate n (0 : ℚ) := by
  induction n with
  | zero => rfl
  | succ m ih => simp [List.replicate_succ, ih]

lemma getLastD_replicate (n : ℕ) (c : ℚ) : (List.replicate n c).getLastD c = c := by
  induction n with
  | zero => rfl
  | succ m ih => rw [List.replicate_succ, List.getLastD_cons, ih]

/-- Trend states produced by the classification branch of both stream
loops (lightweight_trading.py lines 175-180, stock_stream_macd.py lines
279-284). -/
inductive TrendState
  | BULLISH
  | BEARISH
  | NEUTRAL
deriving DecidableEq

/-- Comparison x > y on possibly-NaN floats: none models NaN, and any
comparison involving NaN is false, as in IEEE arithmetic. -/
def fgt (x y : Option ℚ) : Bool :=
  match x, y with
  | some a, some b => decide (b < a)
  | _, _ => false

/-- Comparison x < y on possibly-NaN floats, false whenever either side
is NaN. -/
def flt (x y : Option ℚ) : Bool :=
  match x, y with
  | some a, some b => decide (a < b)
  | _, _ => false

lemma fgt_some_some (a b : ℚ) : fgt (some a) (some b) = decide (b < a) := rfl

lemma flt_some_some (a b : ℚ) : flt (some a) (some b) = decide (a < b) := rfl

lemma fgt_none_left (y : Option ℚ) : fgt none y = false := rfl

lemma fgt_none_right (x : Option ℚ) : fgt x none = false := by cases x <;> rfl

lemma flt_none_left (y : Option ℚ) : flt none y = false := rfl

lemma flt_none_right (x : Option ℚ) : flt x none = false := by cases x <;> rfl

/-- Classification branch shared verbatim by both stream loops
(lightweight_trading.py lines 175-180, stock_stream_macd.py lines
279-284): BULLISH if macd_value > signal_value and histogram > 0, else
BEARISH if macd_value < signal_value and histogram < 0, else NEUTRAL. -/
def classify (macd_value signal_value histogram : Option ℚ) : TrendState :=
  if fgt macd_value signal_value && fgt histogram (some 0) then TrendState.BULLISH
  else if flt macd_value signal_value && flt histogram (some 0) then TrendState.BEARISH
  else TrendState.NEUTRAL

/-- Outcome of the HTTP request made inside
LightweightStockTrader.get_stock_data (lightweight_trading.py lines
70-94): the request may raise (network error, auth error,
raise_for_status), or return parsed JSON whose bars key is missing, or
return parsed JSON carrying a list of bars. -/
inductive FetchOutcome
  | httpError
  | missingBarsKey
  | json (bars : List ℚ)

/-- Method LightweightStockTrader.get_stock_data (lightweight_trading.py
lines 70-94): returns data bars when the key is present and truthy (a
non-empty list), returns [] when the key is absent or the list is empty,
and — via the blanket except on lines 92-94 — also returns [] when the
request raises. -/
def get_stock_data : FetchOutcome → List ℚ
  | FetchOutcome.httpError => []
  | FetchOutcome.missingBarsKey => []
  | FetchOutcome.json bars => if bars.isEmpty then [] else bars

/-- Status reported by one call of a write_to_dac method. -/
inductive WriteStatus
  | written (upper lower : ℕ)
  | rangeError
  | busError
  | skipped (value : ℚ)
deriving DecidableEq

/-- Method LightweightStockTrader.write_to_dac (lightweight_trading.py
lines 124-145).  The import of smbus inside the try raises ImportError
when the library is absent, landing in the except branch that prints the
skipped message together with the value.  When smbus imports, an
out-of-range value raises ValueError, caught by the blanket except as an
error report; otherwise int(value) is nibble-split into upper and lower
bytes and written on the bus, a bus failure being caught and reported
without escaping.  The argument busWriteFails models whether the
bus.write_i2c_block_data call raises. -/
def write_to_dac (smbusAvailable busWriteFails : Bool) (_address : ℕ) (value : ℚ) :
    WriteStatus :=
  if smbusAvailable then
    if ¬ (0 ≤ value ∧ value ≤ 4095) then WriteStatus.rangeError
    else
      let n := value.floor.toNat
      if busWriteFails then WriteStatus.busError
      else WriteStatus.written ((n >>> 4) % 256) ((n <<< 4) % 256)
  else WriteStatus.skipped value

/-- Module initialisation outcome of one of the two scripts. -/
inductive StartupResult
  | started
  | importFailed
deriving DecidableEq

/-- Module-level imports of stock_stream_macd.py: line 11 unconditionally
imports smbus, so the module only loads when the smbus library is
present. -/
def stockStreamStartup (smbusPresent : Bool) : StartupResult :=
  if smbusPresent then StartupResult.started else StartupResult.importFailed

/-- Module-level imports of lightweight_trading.py: there is no top-level
smbus dependency, so the module loads whether or not smbus is present. -/
def lightweightStartup (_smbusPresent : Bool) : StartupResult :=
  StartupResult.started

/-- Rebinding of the module-level availability flags of
stock_stream_macd.py: whatever check_raspberry_pi_libraries detected
while setup_environment ran (line 162), lines 174-177 unconditionally
re-bind SMBUS_AVAILABLE to False before the StockTrader class is
defined. -/
def SMBUS_AVAILABLE_final (_detected : Bool) : Bool := false

/-- Method StockTrader.write_to_dac (stock_stream_macd.py lines 210-237):
when the SMBUS_AVAILABLE flag is set it validates the range (the raised
ValueError is caught by the blanket except of line 233 as an error
report) and then applies the shifts value >> 4 and value << 4; value is a
float there, so the shift raises TypeError, again caught by the blanket
except as an error report.  When the flag is clear it prints the skipped
message with the value and touches nothing. -/
def stock_write_to_dac (smbusFlag : Bool) (_address : ℕ) (value : ℚ) : WriteStatus :=
  if smbusFlag then
    if ¬ (0 ≤ value ∧ value ≤ 4095) then WriteStatus.rangeError
    else WriteStatus.busError
  else WriteStatus.skipped value

/-- What one iteration of the lightweight stream loop encounters
(lightweight_trading.py lines 155-197): get_stock_data returned data or
nothing, the body raised (any exception reaching the inner blanket
except of lines 195-197, a fetch failure included), or a
KeyboardInterrupt arrived. -/
inductive CycleEvent
  | fetchFailure
  | noData
  | bars (prices : List ℚ)
  | interrupt

/-- What one iteration logs. -/
inductive CycleReport
  | errorLogged
  | noDataLogged
  | insufficientLogged
  | statusLine (sinkA sinkB : WriteStatus) (trend : TrendState)
  | interrupted

/-- Whether the loop continues after the iteration. -/
inductive LoopAction
  | continueLoop
  | stopLoop
deriving DecidableEq

/-- Body of the while loop of LightweightStockTrader.stream_ticker
(lightweight_trading.py lines 155-197): a KeyboardInterrupt breaks the
loop; any other exception — a fetch failure included — is caught by the
inner blanket except, logged, and the cycle falls through to the sleep;
empty data logs a no-data line; otherwise the MACD is computed, and on
the None triple an insufficient-data line is logged, while on a result
the signal and macd values are written to the two DAC channels (each
write handling its own failures) and a status line with the classified
trend is printed.  Every branch except the interrupt continues the
loop. -/
def runCycle (smbusAvailable busWriteFails : Bool) : CycleEvent → CycleReport × LoopAction
  | CycleEvent.interrupt => (CycleReport.interrupted, LoopAction.stopLoop)
  | CycleEvent.fetchFailure => (CycleReport.errorLogged, LoopAction.continueLoop)
  | CycleEvent.noData => (CycleReport.noDataLogged, LoopAction.continueLoop)
  | CycleEvent.bars prices =>
    match calculate_simple_macd prices 12 26 with
    | none => (CycleReport.insufficientLogged, LoopAction.continueLoop)
    | some (m, s, h) =>
      (CycleReport.statusLine (write_to_dac smbusAvailable busWriteFails 0x60 s)
        (write_to_dac smbusAvailable busWriteFails 0x61 m)
        (classify (some m) (some s) (some h)), LoopAction.continueLoop)

/-- Number of iterations the loop actually runs — one fetch attempt per
iteration — when the successive cycles encounter the given events: the
loop stops early only when an iteration yields stopLoop. -/
def fetchAttempts (smbusAvailable busWriteFails : Bool) : List CycleEvent → ℕ
  | [] => 0
  | e :: es =>
    match (runCycle smbusAvailable busWriteFails e).2 with
    | LoopAction.stopLoop => 1
    | LoopAction.continueLoop => 1 + fetchAttempts smbusAvailable busWriteFails es

lemma runCycle_snd_eq_stop_iff (sa bw : Bool) (e : CycleEvent) :
    (runCycle sa bw e).2 = LoopAction.stopLoop ↔ e = CycleEvent.interrupt := by
  cases e with
  | interrupt => simp [runCycle]
  | fetchFailure => simp [runCycle]
  | noData => simp [runCycle]
  | bars prices =>
    cases hc : calculate_simple_macd prices 12 26 with
    | none => simp [runCycle, hc]
    | some t =>
      rcases t with ⟨m, s, h⟩
      simp [runCycle, hc]

lemma fetchAttempts_eq_length (sa bw : Bool) (es : List CycleEvent)
    (h : CycleEvent.interrupt ∉ es) : fetchAttempts sa bw es = es.length := by
  induction es with
  | nil => rfl
  | cons e es ih =>
    have he : e ≠ CycleEvent.interrupt := fun hx => h (hx ▸ List.mem_cons_self e es)
    have hcont : (runCycle sa bw e).2 = LoopAction.continueLoop := by
      cases ha : (runCycle sa bw e).2 with
      | continueLoop => rfl
      | stopLoop => exact absurd ((runCycle_snd_eq_stop_iff sa bw e).mp ha) he
    rw [fetchAttempts, hcont]
    rw [ih (fun hx => h (List.mem_cons_of_mem e hx))]
    simp [List.length_cons]
    omega

/-- Claim C2: for slow > fast > 0, calculate_simple_macd returns the
insufficient-data value None exactly when len(closes) < slow; at
len(closes) == slow it already returns a result, never a silent
degenerate value below the threshold. -/
theorem compute_insufficient_iff (prices : List ℚ) (fast slow : ℕ)
    (hf : 0 < fast) (hfs : fast < slow) :
    (calculate_simple_macd prices fast slow = none ↔ prices.length < slow) ∧
    (prices.length = slow → (calculate_simple_macd prices fast slow).isSome = true) := by
  by_cases hc : prices.length < slow
  · refine ⟨⟨fun _ => hc, fun _ => ?_⟩, fun hl => by omega⟩
    simp [calculate_simple_macd, if_pos hc]
  · constructor
    · constructor
      · intro hnone
        simp [calculate_simple_macd, if_neg hc] at hnone
      · intro hl
        exact absurd hl hc
    · intro _
      simp [calculate_simple_macd, if_neg hc]

/-- Claim C2 witness: with the default periods 12/26, a 25-element series
yields None and a 26-element series yields a result. -/
theorem compute_insufficient_iff_witness :
    calculate_simple_macd (List.replicate 25 (0 : ℚ)) 12 26 = none ∧
    (calculate_simple_macd (List.replicate 26 (0 : ℚ)) 12 26).isSome = true :=
  ⟨(compute_insufficient_iff (List.replicate 25 0) 12 26 (by norm_num)
      (by norm_num)).1.mpr (by simp),
   (compute_insufficient_iff (List.replicate 26 0) 12 26 (by norm_num)
      (by norm_num)).2 (by simp)⟩

/-- Claim C3 counterexample: a constant 26-element series has fewer than
slow + signal = 35 closes, yet calculate_simple_macd returns a result,
not the absent state — the code tests len(prices) < slow, not
len(prices) < slow + signal. -/
theorem slow_signal_threshold_counterexample :
    (List.replicate 26 (1 : ℚ)).length < 26 + 9 ∧
    calculate_simple_macd (List.replicate 26 (1 : ℚ)) 12 26 ≠ none := by
  refine ⟨by simp, ?_⟩
  rw [calculate_simple_macd_eq _ 12 26 (by simp)]
  simp

/-- Claim C3 (amended): the IndicatorResult is absent whenever the fetched
window contains fewer than slow closing prices — the code's threshold is
slow, not slow + signal. -/
theorem compute_absent_below_slow (closes : List ℚ) (fast slow : ℕ)
    (h : closes.length < slow) : calculate_simple_macd closes fast slow = none := by
  simp [calculate_simple_macd, if_pos h]

/-- Claim C3 (amended) witness: ten closes are below the default slow
period 26, and compute is absent there. -/
theorem compute_absent_below_slow_witness :
    (List.replicate 10 (1 : ℚ)).length < 26 ∧
    calculate_simple_macd (List.replicate 10 (1 : ℚ)) 12 26 = none :=
  ⟨by simp, compute_absent_below_slow _ 12 26 (by simp)⟩

/-- Claim C4: the classifier is BULLISH exactly when macd > signal and
histogram > 0, BEARISH exactly when macd < signal and histogram < 0,
NEUTRAL in every other case, and NEUTRAL whenever any input is NaN
(modelled as none, whose comparisons are all false). -/
theorem classify_spec :
    (∀ a b c : ℚ,
      classify (some a) (some b) (some c) = TrendState.BULLISH ↔ (b < a ∧ 0 < c)) ∧
    (∀ a b c : ℚ,
      classify (some a) (some b) (some c) = TrendState.BEARISH ↔ (a < b ∧ c < 0)) ∧
    (∀ a b c : ℚ, ¬(b < a ∧ 0 < c) → ¬(a < b ∧ c < 0) →
      classify (some a) (some b) (some c) = TrendState.NEUTRAL) ∧
    (∀ m s h : Option ℚ, m = none ∨ s = none ∨ h = none →
      classify m s h = TrendState.NEUTRAL) := by
  refine ⟨?_, ?_, ?_, ?_⟩
  · intro a b c
    simp only [classify, fgt_some_some, flt_some_some, Bool.and_eq_true, decide_eq_true_eq]
    split_ifs with h1 h2 <;> simp [h1]
  · intro a b c
    simp only [classify, fgt_some_some, flt_some_some, Bool.and_eq_true, decide_eq_true_eq]
    split_ifs with h1 h2
    · refine ⟨fun hx => absurd hx (by decide), fun hx => absurd h1.1 (lt_asymm hx.1)⟩
    · simp [h2]
    · simp [h2]
  · intro a b c hn1 hn2
    simp only [classify, fgt_some_some, flt_some_some]
    split_ifs with h1 h2
    · simp only [Bool.and_eq_true, decide_eq_true_eq] at h1
      exact absurd h1 hn1
    · simp only [Bool.and_eq_true, decide_eq_true_eq] at h2
      exact absurd h2 hn2
    · rfl
  · intro m s h hn
    rcases hn with hm | hs | hh
    · subst hm
      cases s <;> cases h <;>
        simp [classify, fgt_none_left, flt_none_left]
    · subst hs
      cases m <;> cases h <;>
        simp [classify, fgt_none_left, flt_none_left, fgt_none_right, flt_none_right]
    · subst hh
      cases m <;> cases s <;>
        simp [classify, fgt_none_left, flt_none_left, fgt_none_right, flt_none_right]

/-- Claim C4 witness: the spec's truth table evaluated through the
classifier — (1,0,1) is BULLISH, (0,1,-1) is BEARISH, (1,1,0) is NEUTRAL,
and a NaN macd input is NEUTRAL. -/
theorem classify_spec_witness :
    classify (some 1) (some 0) (some 1) = TrendState.BULLISH ∧
    classify (some 0) (some 1) (some (-1)) = TrendState.BEARISH ∧
    classify (some 1) (some 1) (some 0) = TrendState.NEUTRAL ∧
    classify none (some 0) (some 0) = TrendState.NEUTRAL :=
  ⟨(classify_spec.1 1 0 1).mpr (by norm_num),
   (classify_spec.2.1 0 1 (-1)).mpr (by norm_num),
   classify_spec.2.2.1 1 1 0 (by norm_num) (by norm_num),
   classify_spec.2.2.2 none (some 0) (some 0) (Or.inl rfl)⟩

/-- Claim C1: for non-empty closes and positive period, the EMA satisfies
the exact recursion with alpha = 2/(period+1) — first output is the first
input, each later output is alpha*series[i] + (1-alpha)*ema[i-1], and the
output length equals the input length — and calculate_simple_macd returns
the last elements of the MACD, signal, and histogram series derived
elementwise from the fast EMA, the slow EMA, and the EMA of the MACD
line. -/
theorem ema_macd_recursive (data : List ℚ) (period : ℕ)
    (hp : 0 < period) (hne : data ≠ []) :
    (ema data period).length = data.length ∧
    (ema data period).getD 0 0 = data.getD 0 0 ∧
    (∀ i : ℕ, i + 1 < data.length →
      (ema data period).getD (i + 1) 0 =
        alpha period * data.getD (i + 1) 0 +
          (1 - alpha period) * (ema data period).getD i 0) ∧
    (∀ fast slow : ℕ, slow ≤ data.length →
      calculate_simple_macd data fast slow =
        some ((macdLine data fast slow).getLastD 0,
          (signalLine data fast slow).getLastD 0,
          (histogramLine data fast slow).getLastD 0)) := by
  refine ⟨ema_length data period, ?_,
    fun i h => ema_getD_succ data period i h,
    fun fast slow h => calculate_simple_macd_eq data fast slow h⟩
  cases data with
  | nil => exact absurd rfl hne
  | cons d ds => rfl

/-- Claim C1 witness: the recursion instantiated on the series [1, 2, 3]
with period 2, and the compute characterisation with fast 1 and slow 2. -/
theorem ema_macd_recursive_witness :
    ([(1 : ℚ), 2, 3] ≠ []) ∧ 0 < 2 ∧
    (ema [(1 : ℚ), 2, 3] 2).getD 1 0 =
      alpha 2 * ([(1 : ℚ), 2, 3]).getD 1 0 +
        (1 - alpha 2) * (ema [(1 : ℚ), 2, 3] 2).getD 0 0 ∧
    calculate_simple_macd [(1 : ℚ), 2, 3] 1 2 =
      some ((macdLine [(1 : ℚ), 2, 3] 1 2).getLastD 0,
        (signalLine [(1 : ℚ), 2, 3] 1 2).getLastD 0,
        (histogramLine [(1 : ℚ), 2, 3] 1 2).getLastD 0) :=
  ⟨by simp, by norm_num,
   (ema_macd_recursive [(1 : ℚ), 2, 3] 2 (by norm_num) (by simp)).2.2.1 0 (by simp),
   (ema_macd_recursive [(1 : ℚ), 2, 3] 2 (by norm_num) (by simp)).2.2.2 1 2 (by simp)⟩

/-- Claim C5: the lightweight stream loop survives every recoverable
cycle event — fetch failures and bars cycles (hardware write failures
included, whatever the sink flags) continue the loop, only an interrupt
stops it, and a run over interrupt-free events attempts one fetch per
cycle, so the cycle after a failure still fetches. -/
theorem stream_loop_resilient (smbusAvailable busWriteFails : Bool) :
    (runCycle smbusAvailable busWriteFails CycleEvent.fetchFailure).2 =
      LoopAction.continueLoop ∧
    (∀ prices : List ℚ,
      (runCycle smbusAvailable busWriteFails (CycleEvent.bars prices)).2 =
        LoopAction.continueLoop) ∧
    (∀ e : CycleEvent,
      (runCycle smbusAvailable busWriteFails e).2 = LoopAction.stopLoop →
        e = CycleEvent.interrupt) ∧
    (∀ es : List CycleEvent, CycleEvent.interrupt ∉ es →
      fetchAttempts smbusAvailable busWriteFails es = es.length) := by
  refine ⟨rfl, ?_, ?_, ?_⟩
  · intro prices
    cases hc : calculate_simple_macd prices 12 26 with
    | none => simp [runCycle, hc]
    | some t =>
      rcases t with ⟨m, s, h⟩
      simp [runCycle, hc]
  · intro e he
    exact (runCycle_snd_eq_stop_iff smbusAvailable busWriteFails e).mp he
  · intro es hes
    exact fetchAttempts_eq_length smbusAvailable busWriteFails es hes

/-- Claim C5 witness: a fetch failure on the first cycle does not stop the
run — both cycles of an interrupt-free two-event run attempt a fetch. -/
theorem stream_loop_resilient_witness :
    CycleEvent.interrupt ∉ [CycleEvent.fetchFailure, CycleEvent.noData] ∧
    fetchAttempts false false [CycleEvent.fetchFailure, CycleEvent.noData] = 2 :=
  ⟨by simp, by
    have h2 := (stream_loop_resilient false false).2.2.2
      [CycleEvent.fetchFailure, CycleEvent.noData] (by simp)
    simpa using h2⟩

/-- Claim C6 counterexample: the fetch-failure outcome of get_stock_data
produces exactly the same value as the empty no-data outcome — the blanket
except of lines 92-94 returns [], so failures do not surface as a
FetchError distinct from the empty result. -/
theorem fetch_error_not_distinct :
    get_stock_data FetchOutcome.httpError = get_stock_data (FetchOutcome.json []) ∧
    get_stock_data FetchOutcome.httpError = [] :=
  ⟨rfl, rfl⟩

/-- Claim C6 (amended): an empty bar list is returned as the valid no-data
result, but network and service failures are caught inside get_stock_data
and collapsed into the same empty sequence, so no failure value distinct
from the empty result reaches the caller. -/
theorem get_stock_data_outcomes (bars : List ℚ) (hne : bars ≠ []) :
    get_stock_data (FetchOutcome.json bars) = bars ∧
    get_stock_data (FetchOutcome.json []) = [] ∧
    get_stock_data FetchOutcome.httpError = [] := by
  refine ⟨?_, rfl, rfl⟩
  simp [get_stock_data, hne]

/-- Claim C6 (amended) witness: a one-bar response is passed through
unchanged. -/
theorem get_stock_data_outcomes_witness :
    ([(3 : ℚ)] ≠ []) ∧ get_stock_data (FetchOutcome.json [(3 : ℚ)]) = [(3 : ℚ)] :=
  ⟨by simp, (get_stock_data_outcomes [(3 : ℚ)] (by simp)).1⟩

/-- Claim C7: evaluation at the failing configuration — with smbus absent,
stock_stream_macd.py fails at module import time (line 11) instead of
starting, while lightweight_trading.py starts and its sink degrades to a
no-op that reports a skipped status still carrying the value. -/
theorem smbus_absent_startup :
    stockStreamStartup false = StartupResult.importFailed ∧
    lightweightStartup false = StartupResult.started ∧
    write_to_dac false false 0x60 5 = WriteStatus.skipped 5 :=
  ⟨rfl, rfl, rfl⟩

/-- Claim C8: on a constant price series of length at least slow + signal
= 35, calculate_simple_macd yields macd = 0 and histogram = 0, because
the EMA of a constant series equals that constant at every index. -/
theorem constant_series_zero_macd (n : ℕ) (c : ℚ) (h : 26 + 9 ≤ n) :
    ∃ s, calculate_simple_macd (List.replicate n c) 12 26 = some (0, s, 0) := by
  refine ⟨0, ?_⟩
  rw [calculate_simple_macd_eq _ 12 26 (by rw [List.length_replicate]; omega)]
  have hm : macdLine (List.replicate n c) 12 26 = List.replicate n 0 := by
    rw [macdLine, ema_replicate, ema_replicate, zipWith_sub_replicate]
  have hs : signalLine (List.replicate n c) 12 26 = List.replicate n 0 := by
    rw [signalLine, hm, ema_replicate]
  have hh : histogramLine (List.replicate n c) 12 26 = List.replicate n 0 := by
    rw [histogramLine, hm, hs, zipWith_sub_replicate]
  rw [hm, hs, hh, getLastD_replicate]

/-- Claim C8 witness: thirty-five closes all equal to 7 give macd = 0 and
histogram = 0. -/
theorem constant_series_zero_macd_witness :
    26 + 9 ≤ 35 ∧
    ∃ s, calculate_simple_macd (List.replicate 35 (7 : ℚ)) 12 26 = some (0, s, 0) :=
  ⟨by norm_num, constant_series_zero_macd 35 7 (by norm_num)⟩

/-- Claim C9: with the default periods 12/26/9 and at least slow closes,
the hand-rolled calculate_simple_macd of lightweight_trading.py returns
exactly the last elements of the three columns of the pandas-based
get_macd of stock_stream_macd.py — the two pipelines agree. -/
theorem pipelines_equivalent (closes : List ℚ) (h : 26 ≤ closes.length) :
    calculate_simple_macd closes 12 26 =
      some ((get_macd closes 12 26 9).1.getLastD 0,
        (get_macd closes 12 26 9).2.1.getLastD 0,
        (get_macd closes 12 26 9).2.2.getLastD 0) := by
  have h1 : (get_macd closes 12 26 9).1 = macdLine closes 12 26 := by
    simp [get_macd, macdLine, ewmMean_eq_ema]
  have h2 : (get_macd closes 12 26 9).2.1 = signalLine closes 12 26 := by
    simp [get_macd, signalLine, macdLine, ewmMean_eq_ema]
  have h3 : (get_macd closes 12 26 9).2.2 = histogramLine closes 12 26 := by
    simp [get_macd, histogramLine, signalLine, macdLine, ewmMean_eq_ema]
  rw [h1, h2, h3, calculate_simple_macd_eq closes 12 26 h]

/-- Claim C9 witness: the two pipelines agree on a 26-element constant
series. -/
theorem pipelines_equivalent_witness :
    26 ≤ (List.replicate 26 (1 : ℚ)).length ∧
    calculate_simple_macd (List.replicate 26 (1 : ℚ)) 12 26 =
      some ((get_macd (List.replicate 26 (1 : ℚ)) 12 26 9).1.getLastD 0,
        (get_macd (List.replicate 26 (1 : ℚ)) 12 26 9).2.1.getLastD 0,
        (get_macd (List.replicate 26 (1 : ℚ)) 12 26 9).2.2.getLastD 0) :=
  ⟨by simp, pipelines_equivalent _ (by simp)⟩

/-- Claim C10: after lines 174-177 of stock_stream_macd.py re-bind the
availability flags, SMBUS_AVAILABLE is False whatever the earlier
detection found, so StockTrader.write_to_dac always takes the disabled
branch: no range validation, no bus write, only the skipped report
carrying the value. -/
theorem dac_always_skipped (detected : Bool) (address : ℕ) (value : ℚ) :
    stock_write_to_dac (SMBUS_AVAILABLE_final detected) address value =
      WriteStatus.skipped value := rfl

end Trading
